import Mathlib

/-!
Verification development for the go-dbase engine (FoxPro-family dBase
table and memo file handling).  The Go sources are shallowly embedded:
machine integers become `Nat`/`Int` with explicit `% 2 ^ w` where Go's
conversions truncate, byte buffers become `List Nat`, files become total
byte maps `Nat → Nat`, and fallible operations return `Except`/`Option`.
External collaborators that are out of scope of the repository (the
character-set converter, parse helpers defined in files not present
here) are passed in as explicit function parameters, so every theorem
quantifies over their behaviour.
-/

namespace GoDbase

/-! ### Byte-codec helpers (encoding/binary little- and big-endian) -/

/-- Little-endian decoding of the first four bytes of a buffer, the
embedding of `binary.LittleEndian.Uint32`. -/
def le4decode (b : List Nat) : Nat :=
  b.getD 0 0 + 256 * b.getD 1 0 + 256 ^ 2 * b.getD 2 0 + 256 ^ 3 * b.getD 3 0

/-- Little-endian encoding of a 32-bit value into four bytes, the
embedding of `binary.LittleEndian.PutUint32` / `toBinary` on a uint32. -/
def le4encode (n : Nat) : List Nat :=
  [n % 256, n / 256 % 256, n / 256 ^ 2 % 256, n / 256 ^ 3 % 256]

/-- Big-endian decoding of four bytes, the embedding of
`binary.BigEndian.Uint32`. -/
def be4decode (b : List Nat) : Nat :=
  256 ^ 3 * b.getD 0 0 + 256 ^ 2 * b.getD 1 0 + 256 * b.getD 2 0 + b.getD 3 0

/-- Big-endian encoding of a 32-bit value into four bytes, the embedding
of `binary.BigEndian.PutUint32`. -/
def be4encode (n : Nat) : List Nat :=
  [n / 256 ^ 3 % 256, n / 256 ^ 2 % 256, n / 256 % 256, n % 256]

/-- Little-endian decoding of the first eight bytes of a buffer, the
embedding of `binary.LittleEndian.Uint64`. -/
def le8decode (b : List Nat) : Nat :=
  b.getD 0 0 + 256 * b.getD 1 0 + 256 ^ 2 * b.getD 2 0 + 256 ^ 3 * b.getD 3 0 +
    256 ^ 4 * b.getD 4 0 + 256 ^ 5 * b.getD 5 0 + 256 ^ 6 * b.getD 6 0 + 256 ^ 7 * b.getD 7 0

/-- Little-endian encoding of a 64-bit value into eight bytes, the
embedding of `binary.Write` with `binary.LittleEndian` on a 64-bit int
(`toBinary` applied to an `int64`). -/
def le8encode (n : Nat) : List Nat :=
  [n % 256, n / 256 % 256, n / 256 ^ 2 % 256, n / 256 ^ 3 % 256,
   n / 256 ^ 4 % 256, n / 256 ^ 5 % 256, n / 256 ^ 6 % 256, n / 256 ^ 7 % 256]

/-- Two's-complement bit pattern of an `int64` as a natural number:
Go stores `i` as `i mod 2 ^ 64`. -/
def int64bits (i : Int) : Nat := (i % (2 ^ 64 : Int)).toNat

/-- The eight little-endian bytes Go writes for an `int64` value, as in
`toBinary(i)` for `i : int64`. -/
def int64ToLEBytes (i : Int) : List Nat := le8encode (int64bits i)

/-- A file is modelled as a total map from byte offsets to byte values;
`writeBytes f off bs` overwrites the range starting at `off` with the
bytes `bs` (embedding of a seek to `off` followed by a `Write`). -/
def writeBytes (f : Nat → Nat) (off : Nat) (bs : List Nat) : Nat → Nat :=
  fun a => if off ≤ a ∧ a < off + bs.length then bs.getD (a - off) 0 else f a

/-! ### Cursor navigation: `GoTo` and `Skip` -/

/-- Embedding of `DBF.GoTo`: given `RowsCount` and the requested row
number, returns the new `rowPointer` together with `true` when the EOF
error is returned. -/
def goTo (rowsCount rowNumber : Nat) : Nat × Bool :=
  if rowsCount < rowNumber then (rowsCount, true) else (rowNumber, false)

/-- Embedding of `DBF.Skip`: `newval := int64(rowPointer) + offset`,
then the two clamping `if` statements each assign `rowPointer`, and the
final unconditional statement assigns `rowPointer = uint32(newval)`.
The successive `let rp := ...` bindings mirror the successive
assignments; the last one wins, exactly as in the Go function body. -/
def skipRowPointer (rowsCount rowPointer : Nat) (offset : Int) : Nat :=
  let newval : Int := (rowPointer : Int) + offset
  let rp := rowPointer
  let rp := if (rowsCount : Int) ≤ newval then rowsCount else rp
  let rp := if newval < 0 then 0 else rp
  let rp := (newval % (2 ^ 32 : Int)).toNat
  rp

/-- Clamp of `p + offset` to `[0, rowsCount]`, the behaviour the spec
(and the Go function's own doc comment) ascribe to `Skip`. -/
def skipClamped (rowsCount rowPointer : Nat) (offset : Int) : Nat :=
  (max 0 (min ((rowPointer : Int) + offset) (rowsCount : Int))).toNat

/-- C6: `GoTo(n)` returns an EOF error and sets the cursor to
`RowsCount` exactly when `n > RowsCount`; otherwise it sets the cursor
to `n` and returns no error. -/
theorem goTo_clamps_and_errors_iff (rowsCount n : Nat) :
    (rowsCount < n → goTo rowsCount n = (rowsCount, true)) ∧
    (n ≤ rowsCount → goTo rowsCount n = (n, false)) ∧
    ((goTo rowsCount n).2 = true ↔ rowsCount < n) := by
  unfold goTo
  split <;> simp_all

/-- Witness for C6 at `RowsCount = 5` with `n = 7` and `n = 5`. -/
theorem goTo_clamps_and_errors_iff_witness :
    goTo 5 7 = (5, true) ∧ goTo 5 5 = (5, false) :=
  ⟨(goTo_clamps_and_errors_iff 5 7).1 (by decide),
   (goTo_clamps_and_errors_iff 5 5).2.1 (by decide)⟩

/-- C1: the clamping in `Skip` is dead code.  With `RowsCount = 5`,
starting at cursor 0, `Skip(-1)` leaves the pointer at
`uint32(-1) = 4294967295` instead of the clamp 0; starting at cursor 5,
`Skip(10)` leaves the pointer at 15 instead of the clamp 5.  The
function's own doc comment and the spec both require the clamp to
`[0, RowsCount]`. -/
theorem skip_clamp_is_dead_code :
    skipRowPointer 5 0 (-1) = 4294967295 ∧ skipClamped 5 0 (-1) = 0 ∧
    skipRowPointer 5 5 10 = 15 ∧ skipClamped 5 5 10 = 5 := by decide

/-! ### The value codec: `dataToValue` (interpreter.go) -/

/-- Reinterpretation of a 32-bit unsigned value as signed, the embedding
of Go's `int32(u)` conversion. -/
def toSigned32 (n : Nat) : Int := if n < 2 ^ 31 then (n : Int) else (n : Int) - 2 ^ 32

/-- Reinterpretation of a 64-bit unsigned value as signed, the embedding
of Go's `int64(u)` conversion. -/
def toSigned64 (n : Nat) : Int := if n < 2 ^ 63 then (n : Int) else (n : Int) - 2 ^ 64

/-- Error outcomes of the row/field codec.  Each constructor stands for
one family of wrapped errors produced at the corresponding call sites. -/
inductive DbfErr
  | invalidLength
  | unsupportedType
  | memoErr
  | convErr
  | dateErr
  | dateTimeErr
  | numericIntErr
  | floatErr
  deriving DecidableEq

/-- Domain values returned by `dataToValue`.  Go strings are carried as
their byte sequences; `B` doubles keep their uninterpreted IEEE 754 bit
pattern; `Y`/`F`/`N`-with-decimals floats are idealized as rationals
(the sign divergence established below is many orders of magnitude
beyond any float64 rounding). -/
inductive DbfValue
  | text (s : List Nat)
  | bytes (b : List Nat)
  | i32 (i : Int)
  | floatBits (n : Nat)
  | date (d : Nat)
  | dateTime (d : Nat)
  | boolean (b : Bool)
  | f64 (q : ℚ)
  | i64 (i : Int)
  deriving DecidableEq

/-- The relevant fields of a column descriptor: the `Type` byte, the
on-disk slot `Length`, `Decimals`, and `Position` within a row. -/
structure Column where
  dataType : Nat
  length : Nat
  decimals : Nat
  position : Nat
  deriving DecidableEq

/-- The collaborators `dataToValue` calls into that live outside the
given sources (the memo resolution `parseMemo`, the character-set
converter behind `toUTF8String`, and the parse helpers `parseDate`,
`parseDateTime`, `parseNumericInt`, `parseFloat`).  Theorems quantify
over them. -/
structure Helpers where
  parseMemo : List Nat → Except DbfErr (List Nat × Bool)
  toUTF8String : List Nat → Except DbfErr (List Nat)
  parseDate : List Nat → Except DbfErr Nat
  parseDateTime : List Nat → Except DbfErr Nat
  parseNumericInt : List Nat → Except DbfErr Int
  parseFloat : List Nat → Except DbfErr ℚ

/-- Embedding of `DBF.dataToValue` (interpreter.go).  The length check
comes first; the switch is on the column's type byte
(`B` 66, `C` 67, `D` 68, `F` 70, `I` 73, `L` 76, `M` 77, `N` 78,
`T` 84, `V` 86, `Y` 89); the `N` case with nonzero decimals falls
through to the `F` case; every other type byte hits the default
`UnsupportedType` branch.  The `Y` case divides the value of
`binary.LittleEndian.Uint64(raw)` — the unsigned interpretation — by
10000. -/
def dataToValue (h : Helpers) (raw : List Nat) (col : Column) : Except DbfErr DbfValue :=
  if raw.length ≠ col.length then .error .invalidLength
  else
    match col.dataType with
    | 77 =>
      match h.parseMemo raw with
      | .error _ => .error .memoErr
      | .ok (memo, isText) => if isText then .ok (.text memo) else .ok (.bytes memo)
    | 67 =>
      match h.toUTF8String raw with
      | .error _ => .error .convErr
      | .ok s => .ok (.text s)
    | 73 => .ok (.i32 (toSigned32 (le4decode raw)))
    | 66 => .ok (.floatBits (le8decode raw))
    | 68 =>
      match h.parseDate raw with
      | .error _ => .error .dateErr
      | .ok d => .ok (.date d)
    | 84 =>
      match h.parseDateTime raw with
      | .error _ => .error .dateTimeErr
      | .ok d => .ok (.dateTime d)
    | 76 => .ok (.boolean (raw = [84]))
    | 86 => .ok (.bytes raw)
    | 89 => .ok (.f64 ((le8decode raw : ℚ) / 10000))
    | 78 =>
      if col.decimals = 0 then
        match h.parseNumericInt raw with
        | .error _ => .error .numericIntErr
        | .ok i => .ok (.i64 i)
      else
        match h.parseFloat raw with
        | .error _ => .error .floatErr
        | .ok f => .ok (.f64 f)
    | 70 =>
      match h.parseFloat raw with
      | .error _ => .error .floatErr
      | .ok f => .ok (.f64 f)
    | _ => .error .unsupportedType

/-- A concrete bundle of collaborators, used to instantiate theorems at
closed inputs. -/
def trivialHelpers : Helpers :=
  ⟨fun b => .ok (b, true), fun b => .ok b, fun _ => .ok 0, fun _ => .ok 0,
   fun _ => .ok 0, fun _ => .ok 0⟩

/-- C2: the `Y` (currency) decode is unsigned.  `getYRepresentation`
encodes the currency value `-1` as `int64(-10000)`, whose eight
little-endian bytes decode under the claimed signed interpretation to
`-10000` (so the claimed decoded value is `-10000 / 10000 = -1`), but
`dataToValue` interprets them with `binary.LittleEndian.Uint64` and
returns `(2 ^ 64 - 10000) / 10000`, a huge positive number instead of
`-1`. -/
theorem currency_decode_is_unsigned :
    ∀ h : Helpers,
      dataToValue h (int64ToLEBytes (-10000)) ⟨89, 8, 0, 0⟩
        = .ok (.f64 ((18446744073709541616 : ℚ) / 10000)) ∧
      toSigned64 (le8decode (int64ToLEBytes (-10000))) = -10000 ∧
      ((18446744073709541616 : ℚ) / 10000) ≠ ((-10000 : ℚ) / 10000) := by
  intro h
  refine ⟨rfl, by decide, by norm_num⟩

/-! ### Row writing: `writeRow` placement and row-count update -/

/-- Embedding of the placement computation in `Row.writeRow`: given
`FirstRow`, `RowLength`, the current `RowsCount` and `row.Position`,
returns the file offset the row bytes are written at together with the
new `RowsCount`.  In the append branch (`row.Position >= RowsCount`)
Go computes `FirstRow + int64(row.Position-1)*RowLength` where the
subtraction happens in `uint32`, and increments the `uint32`
`RowsCount`. -/
def writeRowPlacement (firstRow rowLength rowsCount position : Nat) : Nat × Nat :=
  if rowsCount ≤ position then
    (firstRow + ((position + 2 ^ 32 - 1) % 2 ^ 32) * rowLength, (rowsCount + 1) % 2 ^ 32)
  else
    (firstRow + position * rowLength, rowsCount)

/-- Counterexample to C3 as stated: with `FirstRow = 100`,
`RowLength = 10` and `RowsCount = 1`, appending with `row.Position = 1`
writes at offset `100 + 0 * 10 = 100` — the slot of the existing last
row — not at the previous end-of-data `100 + 1 * 10 = 110`. -/
theorem writeRow_append_not_at_end_of_data :
    (writeRowPlacement 100 10 1 1).1 = 100 ∧ (100 : Nat) ≠ 100 + 1 * 10 := by decide

/-- C3 amended: appending (`row.Position ≥ RowsCount = k`, with
`1 ≤ row.Position < 2 ^ 32` and no row-count wraparound) increments
`RowsCount` by exactly 1 and writes the row at file offset
`FirstRow + (row.Position - 1) * RowLength`; this is the previous
end-of-data only when `row.Position = k + 1`, not when
`row.Position = k`. -/
theorem writeRow_append_placement (firstRow rowLength k pos : Nat)
    (hk : k ≤ pos) (h1 : 1 ≤ pos) (hp : pos < 2 ^ 32) (hr : k + 1 < 2 ^ 32) :
    writeRowPlacement firstRow rowLength k pos
      = (firstRow + (pos - 1) * rowLength, k + 1) := by
  unfold writeRowPlacement
  rw [if_pos hk]
  have h2 : (pos + 2 ^ 32 - 1) % 2 ^ 32 = pos - 1 := by omega
  have h3 : (k + 1) % 2 ^ 32 = k + 1 := by omega
  rw [h2, h3]

/-- Witness for the amended C3 at `FirstRow = 100`, `RowLength = 10`,
`RowsCount = 1`, `row.Position = 2`: the new slot is at offset 110 and
the count becomes 2. -/
theorem writeRow_append_placement_witness :
    writeRowPlacement 100 10 1 2 = (110, 2) :=
  writeRow_append_placement 100 10 1 2 (by decide) (by decide) (by decide) (by decide)

/-! ### Close -/

/-- The two wrapped close errors (`dbase-io-close-1` on the table file,
`dbase-io-close-2` on the memo file). -/
inductive CloseErr
  | closeDbf
  | closeFpt
  deriving DecidableEq

/-- Observable outcome of `DBF.Close`: whether each underlying
`File.Close` was attempted, and the returned error if any. -/
structure CloseOutcome where
  dbaseAttempted : Bool
  memoAttempted : Bool
  result : Option CloseErr
  deriving DecidableEq

/-- Second half of `DBF.Close`: the `memoFile` nil-check and close.
A handle is modelled as `Option Bool`: `none` is a nil handle, and
`some fails` is a present handle whose `Close()` fails iff `fails`. -/
def closeMemoStep (dbaseAttempted : Bool) (memoFile : Option Bool) : CloseOutcome :=
  match memoFile with
  | some fails => if fails then ⟨dbaseAttempted, true, some .closeFpt⟩
                  else ⟨dbaseAttempted, true, none⟩
  | none => ⟨dbaseAttempted, false, none⟩

/-- Embedding of `DBF.Close`: close the table file if present, and on
error return immediately (the early `return` skips the memo close);
otherwise fall through to the memo-file check. -/
def close (dbaseFile memoFile : Option Bool) : CloseOutcome :=
  match dbaseFile with
  | some fails =>
    if fails then ⟨true, false, some .closeDbf⟩
    else closeMemoStep true memoFile
  | none => closeMemoStep false memoFile

/-- Counterexample to C4 as stated: when both handles are present and
the table-file close fails, the memo-file close is never attempted —
`Close` returns the table error immediately. -/
theorem close_skips_memo_on_table_error :
    close (some true) (some false) = ⟨true, false, some CloseErr.closeDbf⟩ ∧
    (close (some true) (some false)).memoAttempted = false := by decide

/-- C4 amended: `Close` always attempts the table close when that
handle is present; if the table close fails, its error is returned and
the memo close is not attempted; otherwise the memo close is attempted
exactly when the memo handle is present and its error, if any, is
surfaced.  Nil handles are skipped as no-ops. -/
theorem close_sequential_behaviour :
    ∀ d m : Option Bool,
      ((close d m).dbaseAttempted = d.isSome) ∧
      (d = some true → close d m = ⟨true, false, some CloseErr.closeDbf⟩) ∧
      (d ≠ some true →
        ((close d m).memoAttempted = m.isSome) ∧
        (close d m).result = if m = some true then some CloseErr.closeFpt else none) := by
  decide

/-- Witness for the amended C4: table close succeeds, memo close fails,
the memo error is surfaced after both attempts. -/
theorem close_sequential_behaviour_witness :
    (close (some false) (some true)).memoAttempted = (some true : Option Bool).isSome ∧
    (close (some false) (some true)).result = some CloseErr.closeFpt :=
  ⟨((close_sequential_behaviour (some false) (some true)).2.2 (by decide)).1,
   ((close_sequential_behaviour (some false) (some true)).2.2 (by decide)).2⟩

/-- Counterexample to C7 as stated: the length check precedes the type
dispatch, so a wrong-length slice on an unknown type byte (here `'Z'`,
90) yields the invalid-length error, not the `UnsupportedType` error. -/
theorem dataToValue_length_check_first :
    dataToValue trivialHelpers [] ⟨90, 1, 0, 0⟩ = .error .invalidLength ∧
    DbfErr.invalidLength ≠ DbfErr.unsupportedType := by
  exact ⟨rfl, by decide⟩

/-- C7 amended: `dataToValue` fails with the invalid-length error
whenever the raw slice length differs from `column.Length`, for every
column type and every behaviour of the collaborators; when the length
matches, a type byte outside `{B, C, D, F, I, L, M, N, T, V, Y}` fails
with the `UnsupportedType` error (the length check takes priority over
the type dispatch). -/
theorem dataToValue_error_conditions (h : Helpers) (raw : List Nat) (col : Column) :
    (raw.length ≠ col.length → dataToValue h raw col = .error .invalidLength) ∧
    (raw.length = col.length →
      col.dataType ∉ [66, 67, 68, 70, 73, 76, 77, 78, 84, 86, 89] →
      dataToValue h raw col = .error .unsupportedType) := by
  constructor
  · intro hne
    unfold dataToValue
    rw [if_pos hne]
  · intro heq hmem
    simp only [List.mem_cons, List.not_mem_nil, or_false] at hmem
    push_neg at hmem
    unfold dataToValue
    rw [if_neg (by simp [heq])]
    split <;> simp_all

/-- Witness for the amended C7: a length-1 slot of unknown type `'Z'`
gives `UnsupportedType`; a zero-length slice on an 8-byte `Y` column
gives the invalid-length error. -/
theorem dataToValue_error_conditions_witness :
    dataToValue trivialHelpers [0] ⟨90, 1, 0, 0⟩ = .error .unsupportedType ∧
    dataToValue trivialHelpers [] ⟨89, 8, 0, 0⟩ = .error .invalidLength :=
  ⟨(dataToValue_error_conditions trivialHelpers [0] ⟨90, 1, 0, 0⟩).2 (by decide) (by decide),
   (dataToValue_error_conditions trivialHelpers [] ⟨89, 8, 0, 0⟩).1 (by decide)⟩

/-! ### Memo (FPT) file model: `writeMemoHeader`, `writeMemo`, `readMemo` -/

/-- State of an open memo file: the byte contents, the in-memory header
fields `NextFree` (uint32) and `BlockSize` (uint16). -/
structure MemoState where
  file : Nat → Nat
  nextFree : Nat
  blockSize : Nat

/-- The eight header bytes `writeMemoHeader` writes at offset 0: 4-byte
big-endian `NextFree`, two zero bytes, 2-byte big-endian `BlockSize`. -/
def memoHeaderBytes (nextFree blockSize : Nat) : List Nat :=
  be4encode nextFree ++ [0, 0, blockSize / 256 % 256, blockSize % 256]

/-- Embedding of `DBF.writeMemoHeader`: increments the uint32 `NextFree`
and rewrites the first eight bytes of the FPT file. -/
def writeMemoHeader (s : MemoState) : MemoState :=
  let nf := (s.nextFree + 1) % 2 ^ 32
  ⟨writeBytes s.file 0 (memoHeaderBytes nf s.blockSize), nf, s.blockSize⟩

/-- The `BlockSize`-byte buffer `writeMemo` assembles: 4-byte big-endian
sign (1 for text, 0 for binary), 4-byte big-endian `uint32(length)`,
then the payload copied by `copy(block[8:], raw)` — truncated to the
remaining `BlockSize - 8` bytes, zero-padded when shorter. -/
def memoBlockBytes (blockSize : Nat) (raw : List Nat) (text : Bool) (length : Nat) : List Nat :=
  be4encode (if text then 1 else 0) ++ be4encode (length % 2 ^ 32) ++
    (raw.take (blockSize - 8) ++ List.replicate (blockSize - 8 - raw.length) 0)

/-- Embedding of `DBF.writeMemo`: records `blockPosition = NextFree`,
writes the memo header (incrementing `NextFree`), writes the assembled
block at offset `blockPosition * BlockSize`, and returns the 4-byte
little-endian encoding of `blockPosition` as the stored reference. -/
def writeMemo (s : MemoState) (raw : List Nat) (text : Bool) (length : Nat) :
    List Nat × MemoState :=
  let blockPosition := s.nextFree
  let s1 := writeMemoHeader s
  let block := memoBlockBytes s1.blockSize raw text length
  (le4encode blockPosition,
   ⟨writeBytes s1.file (blockPosition * s1.blockSize) block, s1.nextFree, s1.blockSize⟩)

/-- Embedding of `DBF.readMemo`: decodes the block number from the
4-byte little-endian reference, reads the 8-byte block header at
`block * BlockSize` (big-endian `sign` then `length`), and — unless the
length is zero — reads that many payload bytes that follow. -/
def readMemo (s : MemoState) (blockdata : List Nat) : List Nat × Bool :=
  let block := le4decode blockdata
  let base := block * s.blockSize
  let sign := be4decode [s.file base, s.file (base + 1), s.file (base + 2), s.file (base + 3)]
  let leng := be4decode [s.file (base + 4), s.file (base + 5), s.file (base + 6), s.file (base + 7)]
  if leng = 0 then ([], sign == 1)
  else ((List.range leng).map fun j => s.file (base + 8 + j), sign == 1)

/-- Big-endian 32-bit encoding round-trips for values below `2 ^ 32`. -/
theorem be4decode_be4encode (n : Nat) (h : n < 2 ^ 32) : be4decode (be4encode n) = n := by
  have h' : n < 4294967296 := by omega
  simp only [be4decode, be4encode, List.getD]
  norm_num
  omega

/-- Little-endian 32-bit encoding round-trips for values below `2 ^ 32`. -/
theorem le4decode_le4encode (n : Nat) (h : n < 2 ^ 32) : le4decode (le4encode n) = n := by
  have h' : n < 4294967296 := by omega
  simp only [le4decode, le4encode, List.getD]
  norm_num
  omega

/-- Reading inside a freshly written range returns the written bytes. -/
theorem writeBytes_getD (f : Nat → Nat) (off : Nat) (bs : List Nat) (i : Nat)
    (h : i < bs.length) : writeBytes f off bs (off + i) = bs.getD i 0 := by
  unfold writeBytes
  rw [if_pos ⟨Nat.le_add_right off i, by omega⟩, Nat.add_sub_cancel_left]

/-- Reading outside a written range is unaffected by the write. -/
theorem writeBytes_outside (f : Nat → Nat) (off : Nat) (bs : List Nat) (a : Nat)
    (h : a < off ∨ off + bs.length ≤ a) : writeBytes f off bs a = f a := by
  unfold writeBytes
  rw [if_neg (by omega)]

/-- The assembled memo block is exactly `BlockSize` bytes long. -/
theorem memoBlockBytes_length (bs : Nat) (p : List Nat) (t : Bool) (len : Nat)
    (hbs : 8 ≤ bs) : (memoBlockBytes bs p t len).length = bs := by
  simp [memoBlockBytes, be4encode]
  omega

/-- Bytes 0–3 of the assembled block are the big-endian sign. -/
theorem memoBlock_sign_bytes (bs : Nat) (p : List Nat) (t : Bool) (len : Nat) :
    [(memoBlockBytes bs p t len).getD 0 0, (memoBlockBytes bs p t len).getD 1 0,
     (memoBlockBytes bs p t len).getD 2 0, (memoBlockBytes bs p t len).getD 3 0]
      = be4encode (if t then 1 else 0) := by
  cases t <;> rfl

/-- Bytes 4–7 of the assembled block are the big-endian `uint32(length)`. -/
theorem memoBlock_len_bytes (bs : Nat) (p : List Nat) (t : Bool) (len : Nat) :
    [(memoBlockBytes bs p t len).getD 4 0, (memoBlockBytes bs p t len).getD 5 0,
     (memoBlockBytes bs p t len).getD 6 0, (memoBlockBytes bs p t len).getD 7 0]
      = be4encode (len % 2 ^ 32) := by
  cases t <;> rfl

/-- Byte `8 + j` of the assembled block lies in the payload area. -/
theorem memoBlock_payload_getD (bs : Nat) (p : List Nat) (t : Bool) (len j : Nat) :
    (memoBlockBytes bs p t len).getD (8 + j) 0
      = (p.take (bs - 8) ++ List.replicate (bs - 8 - p.length) 0).getD j 0 := by
  unfold memoBlockBytes
  rw [List.getD_append_right _ _ _ _ (by simp [be4encode])]
  congr 1
  simp [be4encode]

/-- The truncated-and-padded payload area reads back the payload byte
when in range and 0 past it. -/
theorem padded_payload_getD (p : List Nat) (k j : Nat) (hj : j < k) :
    (p.take k ++ List.replicate (k - p.length) 0).getD j 0
      = if j < p.length then p.getD j 0 else 0 := by
  by_cases hp : j < p.length
  · rw [if_pos hp]
    rw [List.getD_append _ _ _ _ (by simp; omega)]
    rw [List.getD_eq_getElem _ _ (by simp; omega), List.getD_eq_getElem _ _ hp]
    simp
  · rw [if_neg hp]
    rw [List.getD_append_right _ _ _ _ (by simp; omega)]
    rw [List.getD_eq_getElem _ _ (by simp; omega)]
    simp

/-- C5: the memo append round-trip.  For a payload of at most
`BlockSize - 8` bytes, `writeMemo(p, t, |p|)` returns the 4-byte
little-endian reference to block `NextFree`, afterwards `NextFree` has
increased by exactly one, and `readMemo` on the returned reference
yields the payload `p` and the text flag `t`. -/
theorem writeMemo_readMemo_roundtrip (s : MemoState) (p : List Nat) (t : Bool)
    (hbs : 8 ≤ s.blockSize) (hb2 : s.blockSize < 2 ^ 16)
    (hlen : p.length ≤ s.blockSize - 8) (hnf : s.nextFree + 1 < 2 ^ 32) :
    (writeMemo s p t p.length).1 = le4encode s.nextFree ∧
    (writeMemo s p t p.length).2.nextFree = s.nextFree + 1 ∧
    readMemo (writeMemo s p t p.length).2 (writeMemo s p t p.length).1 = (p, t) := by
  obtain ⟨f, nf, bs⟩ := s
  simp only at hbs hb2 hlen hnf
  have hmod : (nf + 1) % 2 ^ 32 = nf + 1 := Nat.mod_eq_of_lt hnf
  refine ⟨rfl, by simp only [writeMemo, writeMemoHeader]; exact hmod, ?_⟩
  simp only [writeMemo, writeMemoHeader, readMemo]
  rw [le4decode_le4encode nf (by omega)]
  set f1 := writeBytes f 0 (memoHeaderBytes ((nf + 1) % 2 ^ 32) bs) with hf1
  set block := memoBlockBytes bs p t p.length with hblock
  set F := writeBytes f1 (nf * bs) block with hF
  have hblocklen : block.length = bs := memoBlockBytes_length bs p t p.length hbs
  have hread : ∀ i, i < bs → F (nf * bs + i) = block.getD i 0 := by
    intro i hi
    exact writeBytes_getD f1 (nf * bs) block i (by rw [hblocklen]; exact hi)
  have h0 : F (nf * bs) = block.getD 0 0 := by
    have := hread 0 (by omega)
    simpa using this
  rw [h0, hread 1 (by omega), hread 2 (by omega), hread 3 (by omega),
      hread 4 (by omega), hread 5 (by omega), hread 6 (by omega), hread 7 (by omega)]
  have hsign : be4decode [block.getD 0 0, block.getD 1 0, block.getD 2 0, block.getD 3 0]
      = if t then 1 else 0 := by
    rw [memoBlock_sign_bytes]
    exact be4decode_be4encode _ (by cases t <;> decide)
  have hleng : be4decode [block.getD 4 0, block.getD 5 0, block.getD 6 0, block.getD 7 0]
      = p.length := by
    rw [memoBlock_len_bytes, Nat.mod_eq_of_lt (by omega)]
    exact be4decode_be4encode _ (by omega)
  rw [hsign, hleng]
  have hflag : ((if t then 1 else 0 : Nat) == 1) = t := by cases t <;> rfl
  by_cases hp : p.length = 0
  · rw [if_pos hp, hflag]
    have : p = [] := List.length_eq_zero.mp hp
    rw [this]
  · rw [if_neg hp, hflag, Prod.mk.injEq]
    refine ⟨?_, rfl⟩
    apply List.ext_getElem
    · simp
    · intro i h1 h2
      simp only [List.getElem_map, List.getElem_range]
      have hi : i < p.length := by simpa using h1
      have hidx : nf * bs + 8 + i = nf * bs + (8 + i) := by omega
      rw [hidx, hread (8 + i) (by omega), hblock, memoBlock_payload_getD,
          padded_payload_getD p (bs - 8) i (by omega), if_pos hi]
      exact List.getD_eq_getElem p 0 hi

/-- Witness for C5: block size 64, `NextFree = 1`, payload "hi"
(bytes 104 105) written as text and read back. -/
theorem writeMemo_readMemo_roundtrip_witness :
    (writeMemo ⟨fun _ => 0, 1, 64⟩ [104, 105] true 2).2.nextFree = 2 ∧
    readMemo (writeMemo ⟨fun _ => 0, 1, 64⟩ [104, 105] true 2).2
      (writeMemo ⟨fun _ => 0, 1, 64⟩ [104, 105] true 2).1 = ([104, 105], true) := by
  have h := writeMemo_readMemo_roundtrip ⟨fun _ => 0, 1, 64⟩ [104, 105] true
    (by decide) (by decide) (by decide) (by decide)
  exact ⟨h.2.1, h.2.2⟩

/-- C10: a successful `writeMemo` writes exactly one `BlockSize`-byte
block at file offset `NextFree * BlockSize`: outside that range the
file is unchanged from the header rewrite, the block's 4-byte
big-endian length field records the passed `length` argument unchanged
(any `length` below `2 ^ 32`), the payload area holds the payload
truncated to `BlockSize - 8` bytes and zero-padded, and therefore a
`length` argument exceeding `BlockSize - 8` records more bytes than the
block can store. -/
theorem writeMemo_block_layout (s : MemoState) (p : List Nat) (t : Bool) (len : Nat)
    (hbs : 8 ≤ s.blockSize) (hlen : len < 2 ^ 32) :
    (writeMemo s p t len).2.file
        = writeBytes (writeMemoHeader s).file (s.nextFree * s.blockSize)
            (memoBlockBytes s.blockSize p t len) ∧
    (memoBlockBytes s.blockSize p t len).length = s.blockSize ∧
    be4decode [(writeMemo s p t len).2.file (s.nextFree * s.blockSize + 4),
               (writeMemo s p t len).2.file (s.nextFree * s.blockSize + 5),
               (writeMemo s p t len).2.file (s.nextFree * s.blockSize + 6),
               (writeMemo s p t len).2.file (s.nextFree * s.blockSize + 7)] = len ∧
    (∀ j, j < s.blockSize - 8 →
      (writeMemo s p t len).2.file (s.nextFree * s.blockSize + (8 + j))
        = if j < p.length then p.getD j 0 else 0) ∧
    (s.blockSize - 8 < len → ∀ stored, stored ≤ s.blockSize - 8 → stored < len) := by
  obtain ⟨f, nf, bs⟩ := s
  simp only at hbs hlen
  simp only [writeMemo, writeMemoHeader]
  set f1 := writeBytes f 0 (memoHeaderBytes ((nf + 1) % 2 ^ 32) bs) with hf1
  set block := memoBlockBytes bs p t len with hblock
  set F := writeBytes f1 (nf * bs) block with hF
  have hblocklen : block.length = bs := memoBlockBytes_length bs p t len hbs
  have hread : ∀ i, i < bs → F (nf * bs + i) = block.getD i 0 := by
    intro i hi
    exact writeBytes_getD f1 (nf * bs) block i (by rw [hblocklen]; exact hi)
  refine ⟨trivial, hblocklen, ?_, ?_, by omega⟩
  · rw [hread 4 (by omega), hread 5 (by omega), hread 6 (by omega), hread 7 (by omega)]
    rw [memoBlock_len_bytes, Nat.mod_eq_of_lt hlen]
    exact be4decode_be4encode _ hlen
  · intro j hj
    rw [hread (8 + j) (by omega), hblock, memoBlock_payload_getD,
        padded_payload_getD p (bs - 8) j hj]

/-- Witness for C10: block size 16 (payload area 8 bytes), a 10-byte
payload declared with length 10: the length field still records 10,
while byte 8 of the block holds payload byte 0 and `16 - 8 < 10`. -/
theorem writeMemo_block_layout_witness :
    be4decode
        [(writeMemo ⟨fun _ => 0, 1, 16⟩ [1, 2, 3, 4, 5, 6, 7, 8, 9, 10] false 10).2.file (1 * 16 + 4),
         (writeMemo ⟨fun _ => 0, 1, 16⟩ [1, 2, 3, 4, 5, 6, 7, 8, 9, 10] false 10).2.file (1 * 16 + 5),
         (writeMemo ⟨fun _ => 0, 1, 16⟩ [1, 2, 3, 4, 5, 6, 7, 8, 9, 10] false 10).2.file (1 * 16 + 6),
         (writeMemo ⟨fun _ => 0, 1, 16⟩ [1, 2, 3, 4, 5, 6, 7, 8, 9, 10] false 10).2.file (1 * 16 + 7)]
      = 10 ∧
    (writeMemo ⟨fun _ => 0, 1, 16⟩ [1, 2, 3, 4, 5, 6, 7, 8, 9, 10] false 10).2.file (1 * 16 + (8 + 0))
      = 1 ∧
    (16 - 8 : Nat) < 10 := by
  have h := writeMemo_block_layout ⟨fun _ => 0, 1, 16⟩ [1, 2, 3, 4, 5, 6, 7, 8, 9, 10] false 10
    (by decide) (by decide)
  refine ⟨h.2.2.1, ?_, by decide⟩
  have h0 := h.2.2.2.1 0 (by decide)
  simpa using h0

/-! ### Search -/

/-- Failure modes of `Search`: memo column rejected up front, or the
target-value encoding failed. -/
inductive SearchErr
  | searchMemo
  | encodeFailed
  deriving DecidableEq

/-- The collaborators `Search` interacts with: `read off n` models a
seek to byte offset `off` followed by a read of `n` bytes (`none` is a
seek or read error; a shorter list is a short read), and
`materialise i` models `dbf.Row()` after `GoTo i` (`none` is a row
decode failure). -/
structure SearchEnv (ρ : Type) where
  read : Nat → Nat → Option (List Nat)
  materialise : Nat → Option ρ

/-- Embedding of `bytes.Contains`: `val` occurs somewhere in `buf` as a
contiguous byte substring. -/
def containsSub (buf val : List Nat) : Bool :=
  (List.range (buf.length + 1)).any fun i => decide ((buf.drop i).take val.length = val)

/-- One iteration of the `Search` scan loop at row `i`: the chain of
`continue` branches — seek or read failure, short read, no match,
`GoTo` failure, row materialisation failure — yields `none`; a matched
and materialised row yields it. -/
def searchRow {ρ : Type} (env : SearchEnv ρ) (rowsCount firstRow rowLength colPos colLen : Nat)
    (val : List Nat) (i : Nat) : Option ρ :=
  match env.read (firstRow + i * rowLength + colPos) colLen with
  | none => none
  | some buf =>
    if buf.length ≠ colLen then none
    else if containsSub buf val then
      if (goTo rowsCount i).2 then none else env.materialise i
    else none

/-- Embedding of `DBF.Search`: memo columns (`'M'` = 77) are rejected
up front, the target value encoding may fail, and the `for` loop over
`i = 0, …, RowsCount - 1` accumulates matched rows in order.  The
per-iteration seek offset is `FirstRow + i * RowLength + column.Position`
(the running `position` variable advances by `RowLength` every
iteration, including skipped ones). -/
def search {ρ : Type} (env : SearchEnv ρ)
    (dataType rowsCount firstRow rowLength colPos colLen : Nat)
    (encoded : Except SearchErr (List Nat)) : Except SearchErr (List ρ) :=
  if dataType = 77 then .error .searchMemo
  else
    match encoded with
    | .error _ => .error .encodeFailed
    | .ok val =>
      .ok ((List.range rowsCount).foldl (fun rows i =>
        match searchRow env rowsCount firstRow rowLength colPos colLen val i with
        | none => rows
        | some r => rows ++ [r]) [])

/-- A left fold that appends each produced element equals the
`filterMap` of its producer. -/
theorem foldl_opt_append_eq_filterMap {α β : Type} (g : α → Option β) (l : List α)
    (acc : List β) :
    l.foldl (fun rows i =>
      match g i with
      | none => rows
      | some r => rows ++ [r]) acc = acc ++ l.filterMap g := by
  induction l generalizing acc with
  | nil => simp
  | cons a l ih => cases h : g a <;> simp [h, ih]

/-- C8: `Search` rejects memo columns with the `SearchMemo` error, and
otherwise returns exactly the rows, in scan order, whose field bytes
were fully read and contain the encoded target value as a contiguous
byte substring and whose materialisation succeeded; rows with a failed
or short read, or a failed materialisation, are skipped silently.  The
`GoTo` step inside the loop never fails because every scanned index is
below `RowsCount`. -/
theorem search_scan_characterisation {ρ : Type} (env : SearchEnv ρ)
    (dataType rowsCount firstRow rowLength colPos colLen : Nat) (val : List Nat) :
    (dataType = 77 →
      search env dataType rowsCount firstRow rowLength colPos colLen (.ok val)
        = .error .searchMemo) ∧
    (dataType ≠ 77 →
      search env dataType rowsCount firstRow rowLength colPos colLen (.ok val)
        = .ok ((List.range rowsCount).filterMap fun i =>
            match env.read (firstRow + i * rowLength + colPos) colLen with
            | none => none
            | some buf =>
              if buf.length = colLen ∧ containsSub buf val then env.materialise i
              else none)) := by
  constructor
  · intro h77
    simp [search, h77]
  · intro h77
    unfold search
    rw [if_neg h77]
    dsimp only
    rw [foldl_opt_append_eq_filterMap, List.nil_append]
    congr 1
    apply List.filterMap_congr
    intro i hi
    have hlt : i < rowsCount := List.mem_range.mp hi
    unfold searchRow
    cases env.read (firstRow + i * rowLength + colPos) colLen with
    | none => rfl
    | some buf =>
      simp only [goTo, if_neg (by omega : ¬ rowsCount < i)]
      by_cases hb : buf.length = colLen
      · by_cases hc : containsSub buf val
        · simp [hb, hc]
        · simp [hb, hc]
      · simp [hb]

/-- Witness for C8 with three rows: row 0 matches and materialises,
row 1 has a read error and is skipped, row 2 matches but its
materialisation fails and is skipped; a memo column errors. -/
theorem search_scan_characterisation_witness :
    search (ρ := Nat)
        ⟨fun off _ => if off = 1 then some [9, 9] else if off = 5 then none else some [7, 9],
         fun i => if i = 2 then none else some i⟩
        67 3 0 4 1 2 (.ok [9]) = .ok [0] ∧
    search (ρ := Nat)
        ⟨fun off _ => if off = 1 then some [9, 9] else if off = 5 then none else some [7, 9],
         fun i => if i = 2 then none else some i⟩
        77 3 0 4 1 2 (.ok [9]) = .error .searchMemo := by
  constructor
  · rw [(search_scan_characterisation
      ⟨fun off _ => if off = 1 then some [9, 9] else if off = 5 then none else some [7, 9],
       fun i => if i = 2 then none else some i⟩ 67 3 0 4 1 2 [9]).2 (by decide)]
    rfl
  · exact (search_scan_characterisation
      ⟨fun off _ => if off = 1 then some [9, 9] else if off = 5 then none else some [7, 9],
       fun i => if i = 2 then none else some i⟩ 77 3 0 4 1 2 [9]).1 rfl

/-! ### `getCRepresentation` -/

/-- Embedding of Go's `copy(dst, src)`: the first `min |dst| |src|`
bytes of `dst` are replaced with those of `src`; `dst` keeps its
length. -/
def goCopy (dst src : List Nat) : List Nat :=
  src.take dst.length ++ dst.drop src.length

/-- Modelled from the spec: the padding helper `appendSpaces` is
defined in a repository file not present here; per the spec's `C`
encode rule the converter output is "right-padded with spaces (0x20) to
`Length`", and an output already at or beyond the target length is
returned unchanged. -/
def appendSpaces (b : List Nat) (n : Nat) : List Nat :=
  if b.length < n then b ++ List.replicate (n - b.length) 32 else b

/-- Embedding of `getCRepresentation`: allocate a `Length`-byte zeroed
buffer, encode the string through the converter (passed in as
`encode`), right-pad with spaces, `copy` into the buffer (which
silently truncates a longer encoding), and fail only if the buffer
exceeds `Length`. -/
def getCRepresentation (encode : List Nat → Except DbfErr (List Nat))
    (c : List Nat) (colLen : Nat) : Except DbfErr (List Nat) :=
  let raw := List.replicate colLen 0
  match encode c with
  | .error _ => .error .convErr
  | .ok bin =>
    let bin2 := appendSpaces bin colLen
    let raw2 := goCopy raw bin2
    if colLen < raw2.length then .error .invalidLength
    else .ok raw2

/-- C9: whenever the converter succeeds, `getCRepresentation` returns
exactly `column.Length` bytes: the encoded text right-padded with
spaces to `Length`, silently truncated to `Length` when longer; in
particular the over-length error branch never fires. -/
theorem getC_pads_and_truncates (encode : List Nat → Except DbfErr (List Nat))
    (c enc : List Nat) (colLen : Nat) (henc : encode c = .ok enc) :
    getCRepresentation encode c colLen
      = .ok (if colLen ≤ enc.length then enc.take colLen
             else enc ++ List.replicate (colLen - enc.length) 32) ∧
    (if colLen ≤ enc.length then enc.take colLen
     else enc ++ List.replicate (colLen - enc.length) 32).length = colLen := by
  have hres : goCopy (List.replicate colLen 0) (appendSpaces enc colLen)
      = if colLen ≤ enc.length then enc.take colLen
        else enc ++ List.replicate (colLen - enc.length) 32 := by
    by_cases h : colLen ≤ enc.length
    · rw [if_pos h]
      unfold appendSpaces goCopy
      rw [if_neg (by omega)]
      simp
      omega
    · rw [if_neg h]
      unfold appendSpaces goCopy
      rw [if_pos (by omega)]
      rw [List.drop_eq_nil_of_le (by simp; omega), List.append_nil, List.length_replicate,
          List.take_of_length_le (by simp; omega)]
  constructor
  · unfold getCRepresentation
    rw [henc]
    dsimp only
    rw [hres]
    rw [if_neg (by
      intro hc
      split at hc <;> simp at hc <;> omega)]
  · split <;> simp <;> omega

/-- Witness for C9: encoding "AB" (bytes 65 66) through an identity
converter into a 4-byte column yields the space-padded `[65, 66, 32,
32]`, of length 4. -/
theorem getC_pads_and_truncates_witness :
    getCRepresentation (fun b => .ok b) [65, 66] 4 = .ok [65, 66, 32, 32] := by
  have h := getC_pads_and_truncates (fun b => .ok b) [65, 66] [65, 66] 4 rfl
  rw [h.1]
  rfl

end GoDbase
